import Mathlib

/-!
Verification development for the Aceprep document segmentation and
map-reduce generation pipeline (`src/aceprep/src/app/api/generate/route.ts`).

Strings are modelled as `List Char` (`Str`).  JavaScript string primitives
(`trim`, `trimEnd`, `split`, `slice`, `endsWith`) and the semantics of the
concrete regular expressions used by the route are modelled by explicit
executable functions.  The regex character class `\s` is modelled by the
ASCII whitespace characters that can occur in the route's inputs
(space, tab, newline, carriage return, vertical tab, form feed).

The generation backend (OpenAI client) is opaque in the source; it is
modelled as a function `Nat → Str` giving the text returned by the k-th
generation call of a request (the empty string models a failed/empty
response, which is exactly how the route treats it).
-/

set_option autoImplicit false
set_option maxRecDepth 100000

namespace Aceprep

/-- Strings as lists of characters. -/
abbrev Str := List Char

/-- JS `\s` / `String.trim` whitespace, restricted to ASCII. -/
def isWs (c : Char) : Bool :=
  c = ' ' || c = '\t' || c = '\n' || c = '\r' || c = '\x0b' || c = '\x0c'

/-- ASCII decimal digit (regex `\d`). -/
def isDigitC (c : Char) : Bool := '0' ≤ c && c ≤ '9'

/-- ASCII letter (regex `[a-z]` under the `i` flag). -/
def isAsciiLetter (c : Char) : Bool := ('a' ≤ c && c ≤ 'z') || ('A' ≤ c && c ≤ 'Z')

/-- Lower-casing for the regex `i` flag (ASCII). -/
def lcStr (s : Str) : Str := s.map Char.toLower

/-- Longest prefix of `s` whose characters satisfy `p`, and the rest. -/
def spanP (p : Char → Bool) : Str → Str × Str
  | [] => ([], [])
  | c :: rest =>
    if p c then
      let x := spanP p rest
      (c :: x.1, x.2)
    else ([], c :: rest)

/-- JS `trimStart`: drop leading whitespace. -/
def lstrip (s : Str) : Str := s.dropWhile isWs

/-- JS `trimEnd`: drop trailing whitespace. -/
def rstrip (s : Str) : Str := (s.reverse.dropWhile isWs).reverse

/-- JS `trim`. -/
def trim (s : Str) : Str := rstrip (lstrip s)

/-- Number of non-whitespace characters: models `s.replace(/\s/g, "").length`. -/
def nonWsLen (s : Str) : Nat := (s.filter (fun c => !isWs c)).length

/-- `strPrefixOf pat s` : does `s` start with `pat`? -/
def strPrefixOf : Str → Str → Bool
  | [], _ => true
  | _ :: _, [] => false
  | a :: as, b :: bs => if a = b then strPrefixOf as bs else false

/-- JS `String.endsWith`. -/
def strEndsWith (s pat : Str) : Bool := strPrefixOf pat.reverse s.reverse

/-- `strContains s pat` : does `pat` occur as a contiguous substring of `s`? -/
def strContains : Str → Str → Bool
  | [], pat => strPrefixOf pat []
  | s@(_ :: rest), pat => strPrefixOf pat s || strContains rest pat

/-- Case-insensitive substring test: models `/pat/i.test(s)` for a literal
`pat` (the `pat` argument is supplied already lower-cased). -/
def containsCI (s pat : Str) : Bool := strContains (lcStr s) pat

/-- Case-insensitive literal prefix: returns the rest of `s` after `pat`.
`pat` is supplied lower-cased. -/
def dropPrefixCI : Str → Str → Option Str
  | [], s => some s
  | _ :: _, [] => none
  | a :: as, b :: bs => if a = b.toLower then dropPrefixCI as bs else none

/-- Number of (possibly overlapping) occurrences of `pat` in `s`:
one per position of `s` at which `pat` starts. -/
def countOcc (pat : Str) : Str → Nat
  | [] => 0
  | c :: rest => (if strPrefixOf pat (c :: rest) then 1 else 0) + countOcc pat rest

/-- The end-of-document sentinel `---END---`. -/
def endMarker : Str := "---END---".data

/-- Models `text.replace(/\s*---END---\s*$/g, "")`: with the `$` anchor the
regex can remove at most one trailing-sentinel block, namely the final
`---END---` together with the whitespace surrounding it at the end of the
string; a string without a trailing sentinel is returned unchanged
(trailing whitespace included). -/
def stripEndMarker (s : Str) : Str :=
  let t := rstrip s
  if strEndsWith t endMarker then rstrip (t.take (t.length - endMarker.length)) else s

/-- `ensureEndMarker` (route.ts lines 389–394): trim; empty stays empty
(never fabricate a sentinel onto empty output); append `\n---END---`
unless the trimmed text already ends with the sentinel. -/
def ensureEndMarker (text : Str) : Str :=
  let t := trim text
  if t = [] then []
  else if strEndsWith t endMarker then t
  else t ++ '\n' :: endMarker

/-- JS `Array.join("\n\n")`. -/
def joinNN : List Str → Str
  | [] => []
  | [x] => x
  | x :: xs => x ++ '\n' :: '\n' :: joinNN xs

/-- Per-element cleaning step of `safeJoin`:
`o.replace(/\s*---END---\s*$/g, "").trimEnd()`. -/
def cleanElem (o : Str) : Str := rstrip (stripEndMarker o)

/-- `safeJoin` (route.ts lines 396–403): strip each element's trailing
sentinel, drop whitespace-only elements, join with a blank line, trim,
and apply `ensureEndMarker`. -/
def safeJoin (outputs : List Str) : Str :=
  let cleaned := (outputs.map cleanElem).filter (fun o => decide (trim o ≠ []))
  ensureEndMarker (trim (joinNN cleaned))

/-- JS `text.split("\n")` (keeps empty segments). -/
def splitNl (s : Str) : List Str := s.splitOn '\n'

/-- Loop body of `chunkByChars` (route.ts lines 113–138): accumulate lines
into windows of at most `maxChars` characters; a full window is flushed
(trimmed, dropped if empty). The final accumulator is flushed at the end. -/
def chunkCore (maxChars : Nat) : List Str → Str → List Str
  | [], cur =>
    let last := trim cur
    if last = [] then [] else [last]
  | line :: rest, cur =>
    let next := if cur = [] then line else cur ++ '\n' :: line
    if maxChars < next.length then
      let pushed := trim cur
      (if pushed = [] then [] else [pushed]) ++ chunkCore maxChars rest line
    else chunkCore maxChars rest next

/-- `chunkByChars` (route.ts lines 113–138): fallback character-budget
chunker; guarantees at least one chunk for input with content. -/
def chunkByChars (text : Str) (maxChars : Nat) : List Str :=
  let t := trim (text.filter (fun c => c ≠ '\r'))
  if t = [] then []
  else
    let chunks := chunkCore maxChars (splitNl t) []
    if chunks = [] then [t.take maxChars] else chunks

/-! ## Anchored regex scanning

All the splitting regexes have the shape `(?:^|\n)…`: a match can start only
at position 0 (where `^` consumes nothing) or at a `\n` (which the match
consumes).  Since the body of every such pattern starts with `\s*`, both
anchor cases reduce to: attempt the body at the anchor position.
`findPat att isStart s` scans `s` left to right and returns the first match:
the characters before the match, the capture, the characters consumed, and
the rest of the string after the match (where `matchAll` resumes). -/

/-- `takeUpto s rest` : the characters of `s` consumed before suffix `rest`. -/
def takeUpto (s rest : Str) : Str := s.take (s.length - rest.length)

def findPat (att : Str → Option (Str × Str × Str)) : Bool → Str → Option (Str × Str × Str × Str)
  | _, [] => none
  | isStart, c :: rest =>
    match if isStart || c = '\n' then att (c :: rest) else none with
    | some (cap, consumed, r) => some ([], cap, consumed, r)
    | none =>
      match findPat att false rest with
      | none => none
      | some (pre, cap, consumed, r) => some (c :: pre, cap, consumed, r)

/-- Attempt builder for patterns of the form `\s*  core  \s+` (the three
splitting patterns of `splitIntoProblems`).  The trailing `\s+` must be
non-empty. -/
def wsWrap (core : Str → Option (Str × Str)) (s : Str) : Option (Str × Str × Str) :=
  let w1 := spanP isWs s
  match core w1.2 with
  | none => none
  | some (cap, r2) =>
    let w2 := spanP isWs r2
    if w2.1 = [] then none else some (cap, takeUpto s w2.2, w2.2)

/-- Core of `/(?:^|\n)\s*(\d+)\.\s+/g`: digits then a literal dot. -/
def topCore (s : Str) : Option (Str × Str) :=
  let d := spanP isDigitC s
  if d.1 = [] then none
  else match d.2 with
    | '.' :: r => some (d.1, r)
    | _ => none

/-- Core of `/(?:^|\n)\s*\(([a-z])\)\s+/gi`: a parenthesised letter. -/
def letterCore : Str → Option (Str × Str)
  | '(' :: c :: ')' :: r => if isAsciiLetter c then some ([c], r) else none
  | _ => none

/-- The alternatives of `(iv|v?i{1,3}|ix|x)` in backtracking preference
order (`iv` first; `v?` prefers the `v` present; `i{1,3}` is greedy). -/
def romanAlts : List Str :=
  ["iv".data, "viii".data, "vii".data, "vi".data, "iii".data, "ii".data, "i".data, "ix".data, "x".data]

/-- Try the roman alternatives at `s`; the alternative must be followed
immediately by `)`, which makes at most one alternative viable, so trying
them in preference order matches the regex backtracking semantics. -/
def romanTry (s : Str) : List Str → Option (Str × Str)
  | [] => none
  | alt :: alts =>
    match dropPrefixCI alt s with
    | some (')' :: r) => some (s.take alt.length, r)
    | _ => romanTry s alts

/-- Core of `/(?:^|\n)\s*\(((?:iv|v?i{1,3}|ix|x))\)\s+/gi`. -/
def romanCore : Str → Option (Str × Str)
  | '(' :: r => romanTry r romanAlts
  | _ => none

/-- `matchAll` segment collection: each emitted segment runs from the start
of its match to the start of the following match (or the end of the
string), exactly the `slice(start, nextStart)` taken by
`splitIntoProblems`.  The fuel is an upper bound on the number of
remaining matches (each match consumes at least one character). -/
def collectSegs (att : Str → Option (Str × Str × Str)) : Nat → Str → Str → Str → List (Str × Str)
  | 0, cap, seg, rest => [(cap, seg ++ rest)]
  | fuel + 1, cap, seg, rest =>
    match findPat att false rest with
    | none => [(cap, seg ++ rest)]
    | some (pre, cap2, consumed, rest2) =>
      (cap, seg ++ pre) :: collectSegs att fuel cap2 consumed rest2

/-- All `(capture, segment)` pairs of an anchored pattern over `s`.
The text before the first match is discarded (as the source does). -/
def scanSegs (att : Str → Option (Str × Str × Str)) (s : Str) : List (Str × Str) :=
  match findPat att true s with
  | none => []
  | some (_, cap, consumed, rest) => collectSegs att rest.length cap consumed rest

/-! ## Normalisation used by `splitIntoProblems` -/

def isSpTab (c : Char) : Bool := c = ' ' || c = '\t'

def rstripSpTab (s : Str) : Str := (s.reverse.dropWhile isSpTab).reverse

/-- Models `replace(/[ \t]+\n/g, "\n")`: delete any run of spaces/tabs that
immediately precedes a newline, i.e. strip trailing spaces/tabs of every
line except the last. -/
def stripBeforeNl : List Str → List Str
  | [] => []
  | [x] => [x]
  | x :: xs => rstripSpTab x :: stripBeforeNl xs

def joinNl : List Str → Str
  | [] => []
  | [x] => x
  | x :: xs => x ++ '\n' :: joinNl xs

/-- Models `replace(/\n{3,}/g, "\n\n")`: every maximal run of three or more
newlines becomes exactly two.  `n` counts pending newlines. -/
def collapseNlGo : Nat → Str → Str
  | n, [] => List.replicate (min n 2) '\n'
  | n, '\n' :: rest => collapseNlGo (n + 1) rest
  | n, c :: rest => List.replicate (min n 2) '\n' ++ c :: collapseNlGo 0 rest

def collapseNl (s : Str) : Str := collapseNlGo 0 s

/-- The normalisation pipeline at the top of `splitIntoProblems`
(route.ts lines 149–153). -/
def normalizeText (text : Str) : Str :=
  trim (collapseNl (joinNl (stripBeforeNl (splitNl (text.filter (fun c => c ≠ '\r'))))))

/-! ## `splitIntoProblems` (route.ts lines 148–242) -/

/-- `splitIntoProblems`: three-level splitter (top-level `1.`, then `(a)`,
then `(i)`), falling back to `chunkByChars` when no top-level numbering is
found.  Note: the source tests `hasLetterParts` with the same regex used
for `partMatches`, so the two empty checks coincide and are modelled as
one. -/
def splitIntoProblems (text : Str) : List Str :=
  let cleaned := normalizeText text
  if cleaned = [] then []
  else
    let tops := scanSegs (wsWrap topCore) cleaned
    if tops = [] then chunkByChars cleaned 2400
    else
      let topChunks := (tops.map (fun p => (p.1, trim p.2))).filter (fun p => 60 < nonWsLen p.2)
      let finalChunks := topChunks.flatMap (fun tc =>
        let letters := scanSegs (wsWrap letterCore) tc.2
        if letters = [] then [tc.2]
        else letters.flatMap (fun lp =>
          let letter := lcStr lp.1
          let piece := trim lp.2
          let romans := scanSegs (wsWrap romanCore) piece
          if romans = [] then [tc.1 ++ '(' :: letter ++ ')' :: '\n' :: piece]
          else romans.map (fun rp =>
            let rom := lcStr rp.1
            let rpiece := trim rp.2
            tc.1 ++ '(' :: letter ++ ')' :: '(' :: rom ++ ')' :: '\n' :: rpiece)))
      (finalChunks.map trim).filter (fun c => 120 < nonWsLen c)

/-! ## `extractProblemLabel` (route.ts lines 249–261) -/

/-- `/^(\d+\([a-z]\))/i` on the first line. -/
def m1Label (firstLine : Str) : Option Str :=
  let d := spanP isDigitC firstLine
  if d.1 = [] then none
  else match d.2 with
    | '(' :: c :: ')' :: _ => if isAsciiLetter c then some (d.1 ++ ['(', c, ')']) else none
    | _ => none

/-- `/^(\d+)\./` on the first line. -/
def m2Label (firstLine : Str) : Option Str :=
  let d := spanP isDigitC firstLine
  if d.1 = [] then none
  else match d.2 with
    | '.' :: _ => some d.1
    | _ => none

/-- `(?:\([a-z]\))` under the `i` flag. -/
def parenLetter : Str → Option (Str × Str)
  | '(' :: c :: ')' :: r => if isAsciiLetter c then some (['(', c, ')'], r) else none
  | _ => none

def isIvx (c : Char) : Bool :=
  c.toLower = 'i' || c.toLower = 'v' || c.toLower = 'x'

/-- `(?:\([ivx]+\))` under the `i` flag: greedy, and the character ending
the run must be `)` (a shorter run would be followed by an `[ivx]`
character, never `)`, so greediness is exact). -/
def parenIvx : Str → Option (Str × Str)
  | '(' :: r =>
    let x := spanP isIvx r
    if x.1 = [] then none
    else match x.2 with
      | ')' :: r2 => some ('(' :: x.1 ++ [')'], r2)
      | _ => none
  | _ => none

/-- Group 1 of `/(?:Problem\s*)?(\d+\s*(?:\([a-z]\))?(?:\([ivx]+\))?)/i`:
digits, greedy whitespace, then the two independent optional groups. -/
def m3Core (s : Str) : Option Str :=
  let d := spanP isDigitC s
  if d.1 = [] then none
  else
    let w := spanP isWs d.2
    match parenLetter w.2 with
    | some (lp, r3) =>
      match parenIvx r3 with
      | some (rp, _) => some (d.1 ++ w.1 ++ lp ++ rp)
      | none => some (d.1 ++ w.1 ++ lp)
    | none =>
      match parenIvx w.2 with
      | some (rp, _) => some (d.1 ++ w.1 ++ rp)
      | none => some (d.1 ++ w.1)

/-- One position of the `m3` search: prefer the `Problem\s*` literal
present, else match the bare group. -/
def m3Here (s : Str) : Option Str :=
  match dropPrefixCI "problem".data s with
  | some r =>
    match m3Core (spanP isWs r).2 with
    | some g => some g
    | none => m3Core s
  | none => m3Core s

def m3Search : Str → Option Str
  | [] => none
  | s@(_ :: rest) =>
    match m3Here s with
    | some g => some g
    | none => m3Search rest

def removeWs (s : Str) : Str := s.filter (fun c => !isWs c)

/-- `extractProblemLabel`: prefer the injected first-line label, then a
leading `N.`, then a heuristic search anywhere in the text. -/
def extractProblemLabel (problemText : Str) : Str :=
  let firstLine := trim ((splitNl problemText).headD [])
  match m1Label firstLine with
  | some lab => lab
  | none =>
    match m2Label firstLine with
    | some lab => lab
    | none =>
      match m3Search problemText with
      | some g => removeWs g
      | none => "Problem".data

/-! ## `detectProblemLabels` (route.ts lines 45–82) -/

/-- Capture collection for `matchAll` when only the captures are needed. -/
def collectCaps (att : Str → Option (Str × Str × Str)) : Nat → Bool → Str → List Str
  | 0, _, _ => []
  | fuel + 1, isStart, s =>
    match findPat att isStart s with
    | none => []
    | some (_, cap, _, rest) => cap :: collectCaps att fuel false rest

/-- Attempt for `/(?:^|\n)\s*Problem\s*(\d+)(\([a-z]\))?(\([ivx]+\))?/gi`;
the returned capture is already the assembled label `m1+m2+m3`. -/
def attProblem (s : Str) : Option (Str × Str × Str) :=
  let w := spanP isWs s
  match dropPrefixCI "problem".data w.2 with
  | none => none
  | some r =>
    let w2 := spanP isWs r
    let d := spanP isDigitC w2.2
    if d.1 = [] then none
    else
      match parenLetter d.2 with
      | some (lp, r3) =>
        match parenIvx r3 with
        | some (rp, r4) => some (d.1 ++ lp ++ rp, takeUpto s r4, r4)
        | none => some (d.1 ++ lp, takeUpto s r3, r3)
      | none =>
        match parenIvx d.2 with
        | some (rp, r4) => some (d.1 ++ rp, takeUpto s r4, r4)
        | none => some (d.1, takeUpto s d.2, d.2)

/-- Attempt for `/(?:^|\n)\s*(\d+)\s*(\([a-z]\))(\([ivx]+\))?/gi`
(the letter part is mandatory here). -/
def attNumParen (s : Str) : Option (Str × Str × Str) :=
  let w := spanP isWs s
  let d := spanP isDigitC w.2
  if d.1 = [] then none
  else
    let w2 := spanP isWs d.2
    match parenLetter w2.2 with
    | none => none
    | some (lp, r3) =>
      match parenIvx r3 with
      | some (rp, r4) => some (d.1 ++ lp ++ rp, takeUpto s r4, r4)
      | none => some (d.1 ++ lp, takeUpto s r3, r3)

/-- Attempt for `/(?:^|\n)\s*(\d+)\s*([.)])/g`. -/
def attNumDot (s : Str) : Option (Str × Str × Str) :=
  let w := spanP isWs s
  let d := spanP isDigitC w.2
  if d.1 = [] then none
  else
    let w2 := spanP isWs d.2
    match w2.2 with
    | c :: r => if c = '.' || c = ')' then some (d.1, takeUpto s r, r) else none
    | [] => none

/-- `/\(\s*[a-z]\s*\)/i` at one position. -/
def subpartAt : Str → Bool
  | '(' :: r =>
    (match (spanP isWs r).2 with
     | c :: r2 =>
       if isAsciiLetter c then
         match (spanP isWs r2).2 with
         | ')' :: _ => true
         | _ => false
       else false
     | [] => false)
  | _ => false

/-- `/\(\s*[a-z]\s*\)/i.test(text)`. -/
def hasSubparts : Str → Bool
  | [] => false
  | s@(_ :: rest) => subpartAt s || hasSubparts rest

/-- JS `Set` insertion: keep the first occurrence of each element. -/
def dedupGo (seen : List Str) : List Str → List Str
  | [] => []
  | x :: xs => if x ∈ seen then dedupGo seen xs else x :: dedupGo (x :: seen) xs

/-- `parseInt(label, 10)` for the labels produced here (they always start
with a digit). -/
def parseIntPrefix (s : Str) : Nat :=
  (spanP isDigitC s).1.foldl (fun n c => n * 10 + (c.toNat - '0'.toNat)) 0

/-- Lexicographic order on code points; on the label alphabet (digits,
letters, parentheses) this agrees with `localeCompare`. -/
def strLexLe : Str → Str → Bool
  | [], _ => true
  | _ :: _, [] => false
  | a :: as, b :: bs => if a = b then strLexLe as bs else decide (a < b)

/-- The comparator of `detectProblemLabels`: numeric prefix first, then
string comparison. -/
def labelLe (a b : Str) : Bool :=
  let an := parseIntPrefix a
  let bn := parseIntPrefix b
  if an = bn then strLexLe a b else decide (an < bn)

def insertBy (le : Str → Str → Bool) (x : Str) : List Str → List Str
  | [] => [x]
  | y :: ys => if le x y then x :: y :: ys else y :: insertBy le x ys

/-- Insertion sort; the JS `Array.sort` comparator induces a total order on
the (pairwise distinct, deduplicated) labels, so the sorted result is the
unique sorted arrangement. -/
def sortBy (le : Str → Str → Bool) : List Str → List Str
  | [] => []
  | x :: xs => insertBy le x (sortBy le xs)

/-- `detectProblemLabels`: three regex passes, `Set` de-duplication,
then sort. -/
def detectProblemLabels (text : Str) : List Str :=
  let fuel := text.length + 1
  let a := (collectCaps attProblem fuel true text).map removeWs
  let b := (collectCaps attNumParen fuel true text).map removeWs
  let c :=
    if hasSubparts text then
      ((collectCaps attNumDot fuel true text).map trim).filter (fun l => l.length ≤ 3)
    else []
  sortBy labelLe (dedupGo [] (a ++ b ++ c))

/-! ## `fallbackHomeworkExplainFromLabels` (route.ts lines 87–108) -/

/-- The fixed part of the per-label fallback block (everything after the
`[label]` first line). -/
def blockRest : Str :=
  ("- What the problem is asking:\n  - Identify what quantity the problem wants (value, sketch, property, transform, etc.).\n  - Restate the required final format (e.g., rectangular vs. polar, labeled sketch, etc.).\n- Method / steps to solve:\n  - Rewrite the given expression clearly and simplify step-by-step.\n  - If complex numbers: convert between rectangular/polar as needed and track magnitude/phase carefully.\n  - If signals: map time-shift/scale/reversal operations by transforming key time points and amplitudes.\n- Common pitfalls:\n  - Skipping algebra steps and losing signs or j factors.\n  - Using the wrong convention (degrees vs radians, atan vs atan2 quadrant).\n  - Applying time transforms in the wrong direction or order.").data

/-- One fallback block: the trimmed template literal. -/
def blockOf (label : Str) : Str :=
  trim ('\n' :: '[' :: (label ++ ']' :: '\n' :: blockRest ++ ['\n']))

/-- `fallbackHomeworkExplainFromLabels`: guaranteed formatted output built
only from labels (placeholders when fewer than two were detected). -/
def fallbackHomeworkExplainFromLabels (labels : List Str) : Str :=
  let useLabels :=
    if 2 ≤ labels.length then labels else ["Homework-1".data, "Homework-2".data]
  let blocks := (useLabels.take 10).map blockOf
  trim (joinNN blocks) ++ '\n' :: endMarker

/-! ## Quality gate `looksTooShortHomeworkExplain` (route.ts lines 373–384) -/

/-- The required section markers, lower-cased for the `i` flag. -/
def askingMarker : Str := "what the problem is asking".data

def pitfallsMarker : Str := "common pitfalls".data

/-- `/Method\s*\/\s*steps to solve/i` at one position. -/
def methodAt (s : Str) : Bool :=
  match dropPrefixCI "method".data s with
  | none => false
  | some r =>
    match (spanP isWs r).2 with
    | '/' :: r2 => (dropPrefixCI "steps to solve".data (spanP isWs r2).2).isSome
    | _ => false

/-- `/Method\s*\/\s*steps to solve/i.test(body)`. -/
def hasMethodMarker : Str → Bool
  | [] => false
  | s@(_ :: rest) => methodAt s || hasMethodMarker rest

def isBulletChar (c : Char) : Bool := c = '-' || c = '•'

/-- Length of a `/\s*[-•]\s+/` match starting at this position (the two
whitespace runs are greedy and exact: giving characters back can never
make the literal bullet match). -/
def bulletMatchLen (s : Str) : Option Nat :=
  let w1 := spanP isWs s
  match w1.2 with
  | b :: r =>
    if isBulletChar b then
      let w2 := spanP isWs r
      if w2.1 = [] then none else some (w1.1.length + 1 + w2.1.length)
    else none
  | [] => none

/-- Counter for `(body.match(/^\s*[-•]\s+/gm) ?? []).length`: with the `m`
flag a match can start only at position 0 or right after a newline
(`anchor`); `matchAll` style scanning is non-overlapping, so after a match
the `skip` counter walks over the remaining consumed characters. -/
def bulletGo : Nat → Bool → Str → Nat
  | _, _, [] => 0
  | skip + 1, _, c :: rest => bulletGo skip (c = '\n') rest
  | 0, anchor, c :: rest =>
    if anchor then
      match bulletMatchLen (c :: rest) with
      | some len => 1 + bulletGo (len - 1) (c = '\n') rest
      | none => bulletGo 0 (c = '\n') rest
    else bulletGo 0 (c = '\n') rest

def countBullets (s : Str) : Nat := bulletGo 0 true s

/-- `looksTooShortHomeworkExplain`: reject unless all three section markers
are present, at least 6 bullets, and at least 220 characters (after
stripping a trailing sentinel and trimming). -/
def looksTooShortHomeworkExplain (text : Str) : Bool :=
  let body := trim (stripEndMarker text)
  let hasAsking := containsCI body askingMarker
  let hasMethod := hasMethodMarker body
  let hasPitfalls := containsCI body pitfallsMarker
  let bullets := countBullets body
  let longEnough := decide (220 ≤ body.length)
  !(hasAsking && hasMethod && hasPitfalls && decide (6 ≤ bullets) && longEnough)

/-! ## The `POST` handler (route.ts lines 448–657)

HTTP parsing, PDF extraction and prompt construction are external
collaborators; `materialText` is the post-extraction material and the
backend is a function from call index to returned text.  `hasKey` models
the presence of `OPENAI_API_KEY` (`getClient` throws without it, which the
outer `catch` turns into a 500 response before any length checks). -/

inductive RouteResult
  | ok (output : Str)
  | err (message : Str) (status : Nat)
deriving DecidableEq

def errProOnly : Str := "Exam Pack is Pro-only.".data

def errNoKey : Str :=
  "Missing OPENAI_API_KEY. Set it in .env.local or Vercel Environment Variables.".data

def errNoMaterial : Str := "Paste notes or upload a PDF first.".data

def errTooShort : Str :=
  "I couldn\x27t extract enough readable text from that PDF. If it\x27s scanned, try a text-based PDF or paste the problem text.".data

def errEmptyModel : Str :=
  "Model returned empty output. Try again or use a different model.".data

/-- `const userIsPro = false` (route.ts line 452). -/
def userIsPro : Bool := false

/-- `const maxProblems = userIsPro ? 30 : 6` (route.ts line 497). -/
def maxProblems (pro : Bool) : Nat := if pro then 30 else 6

/-- One iteration of the per-problem loop (route.ts lines 502–554): skip
units with fewer than 120 non-whitespace characters; otherwise one
generation call, then at most one escalated retry when the quality gate
fails; returns the next call index and the accepted output, if any. -/
def attemptUnit (backend : Nat → Str) (k : Nat) (problemText : Str) : Nat × Option Str :=
  if nonWsLen problemText < 120 then (k, none)
  else
    let out1 := ensureEndMarker (backend k)
    if looksTooShortHomeworkExplain out1 then
      let out2 := ensureEndMarker (backend (k + 1))
      (k + 2, if looksTooShortHomeworkExplain out2 then none else some out2)
    else (k + 1, some out1)

/-- The fan-out loop: process units in order, collecting accepted outputs
in chunk order; a dropped unit contributes nothing and processing
continues with the remaining units. -/
def fanout (backend : Nat → Str) : Nat → List Str → Nat × List Str
  | k, [] => (k, [])
  | k, pt :: rest =>
    let r := attemptUnit backend k pt
    let r2 := fanout backend r.1 rest
    (r2.1, r.2.toList ++ r2.2)

/-- The `POST` handler, returning the response and the total number of
generation calls made. -/
def runPOST (backend : Nat → Str) (hasKey : Bool) (tool : Str) (materialText : Str) :
    RouteResult × Nat :=
  if tool = "Exam Pack".data then (.err errProOnly 403, 0)
  else if hasKey = false then (.err errNoKey 500, 0)
  else if materialText = [] then (.err errNoMaterial 400, 0)
  else if nonWsLen materialText < 120 then (.err errTooShort 400, 0)
  else if tool = "Homework Explain".data then
    let problems := splitIntoProblems materialText
    let fo := fanout backend 0 (problems.take (maxProblems userIsPro))
    if fo.2 = [] then
      let labels := detectProblemLabels materialText
      let out := ensureEndMarker (backend fo.1)
      if looksTooShortHomeworkExplain out then
        (.ok (fallbackHomeworkExplainFromLabels labels), fo.1 + 1)
      else (.ok out, fo.1 + 1)
    else (.ok (safeJoin fo.2), fo.1)
  else
    let out := ensureEndMarker (backend 0)
    if out = [] then (.err errEmptyModel 500, 1) else (.ok out, 1)

/-- Concrete input of the chunker nested-split test property. -/
def c5raw : Str := "1. Foo\n(a) Bar\n(b) Baz\n2. Qux".data

/-- The nested-split input padded so that every unit passes the chunker's
usable-content thresholds (60 non-whitespace characters per top-level
chunk, 120 per final unit). -/
def c5padded : Str :=
  "1. Intro\n(a) ".data ++ List.replicate 130 'x' ++
  "\n(b) ".data ++ List.replicate 130 'x' ++
  "\n2. ".data ++ List.replicate 130 'x'

/-- A long, bullet-rich output that carries the first two section markers
but no `Common pitfalls` section. -/
def qualityGateCexInput : Str :=
  ("What the problem is asking\nMethod / steps to solve\n- aaaaaaaaaaaaaaaaaaaaaaaaaaaaaa\n- bbbbbbbbbbbbbbbbbbbbbbbbbbbbbb\n- cccccccccccccccccccccccccccccc\n- dddddddddddddddddddddddddddddd\n- eeeeeeeeeeeeeeeeeeeeeeeeeeeeee\n- ffffffffffffffffffffffffffffff\n- gggggggggggggggggggggggggggggg\n---END---").data

/-! ## Lemmas: prefixes, suffixes and substring occurrences -/

theorem strPrefixOf_iff (pat s : Str) : strPrefixOf pat s = true ↔ ∃ v, s = pat ++ v := by
  induction pat generalizing s with
  | nil => simp [strPrefixOf]
  | cons p ps ih =>
    cases s with
    | nil => simp [strPrefixOf]
    | cons a as =>
      simp only [strPrefixOf]
      by_cases hp : p = a
      · subst hp
        simp [ih]
      · simp [hp, Ne.symm hp]

theorem strEndsWith_iff (s pat : Str) : strEndsWith s pat = true ↔ ∃ u, s = u ++ pat := by
  unfold strEndsWith
  rw [strPrefixOf_iff]
  constructor
  · rintro ⟨v, hv⟩
    refine ⟨v.reverse, ?_⟩
    have := congrArg List.reverse hv
    simpa using this
  · rintro ⟨u, hu⟩
    exact ⟨u.reverse, by simp [hu]⟩

theorem strPrefixOf_append_self (pat v : Str) : strPrefixOf pat (pat ++ v) = true := by
  rw [strPrefixOf_iff]; exact ⟨v, rfl⟩

theorem strEndsWith_append_self (u pat : Str) : strEndsWith (u ++ pat) pat = true := by
  rw [strEndsWith_iff]; exact ⟨u, rfl⟩

theorem strContains_of_parts (pat u v : Str) : strContains (u ++ pat ++ v) pat = true := by
  induction u with
  | nil =>
    cases h : pat ++ v with
    | nil =>
      have hp : pat = [] := by
        cases pat with
        | nil => rfl
        | cons a as => simp at h
      have hv : v = [] := by
        cases pat <;> simp_all
      simp [strContains, hp, hv, strPrefixOf]
    | cons c cs =>
      simp only [List.nil_append, h, strContains]
      rw [← h, strPrefixOf_append_self]
      simp
  | cons c cs ih =>
    simp only [List.cons_append, strContains, List.append_eq] at ih ⊢
    rw [ih]
    simp

/-- `'\n'` does not occur in the sentinel. -/
theorem endMarker_no_nl : '\n' ∉ endMarker := by decide

theorem strPrefixOf_append_nl (pat z y : Str) (hnl : '\n' ∉ pat) :
    strPrefixOf pat (z ++ '\n' :: y) = strPrefixOf pat z := by
  induction pat generalizing z with
  | nil => simp [strPrefixOf]
  | cons p ps ih =>
    have hp : p ≠ '\n' := fun h => hnl (h ▸ List.mem_cons_self p ps)
    have hps : '\n' ∉ ps := fun h => hnl (List.mem_cons_of_mem p h)
    cases z with
    | nil =>
      simp only [List.nil_append, strPrefixOf]
      simp [hp]
    | cons a as =>
      simp only [List.cons_append, strPrefixOf]
      by_cases hpa : p = a
      · simp [hpa, ih as hps]
      · simp [hpa]

theorem countOcc_append_nl (pat x y : Str) (hnl : '\n' ∉ pat) (hne : pat ≠ []) :
    countOcc pat (x ++ '\n' :: y) = countOcc pat x + countOcc pat y := by
  induction x with
  | nil =>
    simp only [List.nil_append, countOcc]
    have : strPrefixOf pat ('\n' :: y) = false := by
      cases pat with
      | nil => exact absurd rfl hne
      | cons p ps =>
        have hp : p ≠ '\n' := fun h => hnl (h ▸ List.mem_cons_self p ps)
        simp [strPrefixOf, hp]
    simp [this]
  | cons c x' ih =>
    have h1 : strPrefixOf pat ((c :: x') ++ '\n' :: y) = strPrefixOf pat (c :: x') :=
      strPrefixOf_append_nl pat (c :: x') y hnl
    simp only [List.cons_append] at h1
    simp only [List.cons_append, countOcc, List.append_eq, h1, ih]
    omega

theorem countOcc_le_append_left (pat u t : Str) :
    countOcc pat t ≤ countOcc pat (u ++ t) := by
  induction u with
  | nil => simp
  | cons c u' ih =>
    simp only [List.cons_append, countOcc, List.append_eq]
    omega

theorem countOcc_le_append_right (pat u v : Str) :
    countOcc pat u ≤ countOcc pat (u ++ v) := by
  induction u with
  | nil => simp [countOcc]
  | cons c u' ih =>
    have hmono : (if strPrefixOf pat (c :: u') = true then 1 else 0) ≤
        (if strPrefixOf pat (c :: (u' ++ v)) = true then 1 else 0) := by
      by_cases hpre : strPrefixOf pat (c :: u') = true
      · have hpre2 : strPrefixOf pat (c :: (u' ++ v)) = true := by
          rw [strPrefixOf_iff] at hpre ⊢
          obtain ⟨w, hw⟩ := hpre
          refine ⟨w ++ v, ?_⟩
          have := congrArg (fun l => l ++ v) hw
          simpa [List.append_assoc] using this
        simp [hpre, hpre2]
      · simp [hpre]
    simp only [List.cons_append, countOcc, List.append_eq]
    omega

theorem countOcc_endMarker_self : countOcc endMarker endMarker = 1 := by decide

/-- A string that ends with the sentinel contains at least one occurrence. -/
theorem countOcc_pos_of_endsWith (s : Str) (h : strEndsWith s endMarker = true) :
    1 ≤ countOcc endMarker s := by
  rw [strEndsWith_iff] at h
  obtain ⟨u, hu⟩ := h
  calc 1 = countOcc endMarker endMarker := countOcc_endMarker_self.symm
    _ ≤ countOcc endMarker (u ++ endMarker) := countOcc_le_append_left _ _ _
    _ = countOcc endMarker s := by rw [hu]

/-! ## Lemmas: whitespace stripping -/

theorem dropWhile_suffix_decomp (p : Char → Bool) (l : Str) :
    ∃ u, l = u ++ l.dropWhile p ∧ ∀ c ∈ u, p c = true := by
  induction l with
  | nil => exact ⟨[], rfl, by simp⟩
  | cons c l' ih =>
    by_cases h : p c
    · obtain ⟨u, hu, hall⟩ := ih
      refine ⟨c :: u, ?_, ?_⟩
      · simpa [List.dropWhile, h] using congrArg (c :: ·) hu
      · intro d hd
        rcases List.mem_cons.mp hd with h1 | h2
        · exact h1 ▸ h
        · exact hall d h2
    · refine ⟨[], ?_, by simp⟩
      simp [List.dropWhile, h]

theorem dropWhile_head_false (p : Char → Bool) (l : Str) (c : Char) (rest : Str)
    (h : l.dropWhile p = c :: rest) : p c = false := by
  induction l with
  | nil => simp [List.dropWhile] at h
  | cons a l' ih =>
    by_cases hp : p a
    · exact ih (by simpa [List.dropWhile, hp] using h)
    · simp only [List.dropWhile, hp] at h
      cases h
      simpa using hp

theorem dropWhile_idem (p : Char → Bool) (l : Str) :
    (l.dropWhile p).dropWhile p = l.dropWhile p := by
  cases h : l.dropWhile p with
  | nil => simp
  | cons c rest =>
    have := dropWhile_head_false p l c rest h
    simp [List.dropWhile, this]

theorem dropWhile_nil_iff (p : Char → Bool) (l : Str) :
    l.dropWhile p = [] ↔ ∀ c ∈ l, p c = true := by
  induction l with
  | nil => simp
  | cons c l' ih =>
    by_cases h : p c
    · simp [List.dropWhile, h, ih]
    · constructor
      · intro hcontra
        simp [List.dropWhile, h] at hcontra
      · intro hall
        exact absurd (hall c (by simp)) (by simp [h])

theorem lstrip_cons_nonws (c : Char) (s : Str) (h : isWs c = false) :
    lstrip (c :: s) = c :: s := by
  simp [lstrip, List.dropWhile, h]

theorem rstrip_append_nonws (s : Str) (c : Char) (h : isWs c = false) :
    rstrip (s ++ [c]) = s ++ [c] := by
  simp [rstrip, List.dropWhile, h]

theorem rstrip_append_ws (s : Str) (c : Char) (h : isWs c = true) :
    rstrip (s ++ [c]) = rstrip s := by
  simp [rstrip, List.dropWhile, h]

theorem rstrip_decomp (s : Str) : ∃ v, s = rstrip s ++ v ∧ ∀ c ∈ v, isWs c = true := by
  obtain ⟨u, hu, hall⟩ := dropWhile_suffix_decomp isWs s.reverse
  refine ⟨u.reverse, ?_, ?_⟩
  · have := congrArg List.reverse hu
    simpa [rstrip] using this
  · intro c hc
    exact hall c (List.mem_reverse.mp hc)

theorem lstrip_decomp (s : Str) : ∃ u, s = u ++ lstrip s ∧ ∀ c ∈ u, isWs c = true :=
  dropWhile_suffix_decomp isWs s

theorem rstrip_idem (s : Str) : rstrip (rstrip s) = rstrip s := by
  simp [rstrip, dropWhile_idem]

theorem rstrip_nil : rstrip [] = [] := rfl

theorem trim_nil : trim [] = [] := rfl

theorem trim_empty_iff (s : Str) : trim s = [] ↔ ∀ c ∈ s, isWs c = true := by
  constructor
  · intro h c hc
    obtain ⟨u, hu, hallu⟩ := lstrip_decomp s
    have hr : (lstrip s).reverse.dropWhile isWs = [] := by
      have : ((lstrip s).reverse.dropWhile isWs).reverse = [] := h
      simpa using this
    have hallr : ∀ c ∈ lstrip s, isWs c = true := by
      intro d hd
      exact (dropWhile_nil_iff isWs _).mp hr d (List.mem_reverse.mpr hd)
    rw [hu] at hc
    rcases List.mem_append.mp hc with h1 | h2
    · exact hallu c h1
    · exact hallr c h2
  · intro hall
    have h1 : lstrip s = [] := by
      rw [lstrip, dropWhile_nil_iff]
      exact hall
    show rstrip (lstrip s) = []
    rw [h1]
    rfl

theorem rstrip_head_eq (c : Char) (s : Str) :
    rstrip (c :: s) = [] ∨ ∃ t, rstrip (c :: s) = c :: t := by
  cases h : rstrip (c :: s) with
  | nil => exact Or.inl rfl
  | cons d t =>
    obtain ⟨v, hv, _⟩ := rstrip_decomp (c :: s)
    rw [h] at hv
    cases hv
    exact Or.inr ⟨t, rfl⟩

theorem trim_idem (s : Str) : trim (trim s) = trim s := by
  cases h : trim s with
  | nil => simp [trim_nil]
  | cons c t =>
    have hc : isWs c = false := by
      have h2 : rstrip (lstrip s) = c :: t := h
      obtain ⟨v, hv, _⟩ := rstrip_decomp (lstrip s)
      rw [h2] at hv
      have : lstrip s = (c :: t) ++ v := hv
      have hd : (lstrip s).dropWhile isWs = lstrip s := by
        simp [lstrip, dropWhile_idem]
      rw [this] at hd
      exact dropWhile_head_false isWs ((c :: t) ++ v) c (t ++ v) (by simpa using hd)
    show rstrip (lstrip (c :: t)) = c :: t
    rw [lstrip_cons_nonws c t hc]
    have h2 : rstrip (lstrip s) = c :: t := h
    calc rstrip (c :: t) = rstrip (rstrip (lstrip s)) := by rw [h2]
      _ = rstrip (lstrip s) := rstrip_idem _
      _ = c :: t := h2

theorem rstrip_trim (s : Str) : rstrip (trim s) = trim s := by
  show rstrip (rstrip (lstrip s)) = rstrip (lstrip s)
  exact rstrip_idem _

theorem countOcc_trim_le (pat s : Str) : countOcc pat (trim s) ≤ countOcc pat s := by
  obtain ⟨u, hu, _⟩ := lstrip_decomp s
  obtain ⟨v, hv, _⟩ := rstrip_decomp (lstrip s)
  have h1 : countOcc pat (trim s) ≤ countOcc pat (lstrip s) := by
    conv_rhs => rw [hv]
    exact countOcc_le_append_right _ _ _
  have h2 : countOcc pat (lstrip s) ≤ countOcc pat s := by
    conv_rhs => rw [hu]
    exact countOcc_le_append_left _ _ _
  exact le_trans h1 h2

theorem trim_ne_nil_of_mem (s : Str) (c : Char) (hc : c ∈ s) (hws : isWs c = false) :
    trim s ≠ [] := by
  intro h
  have := (trim_empty_iff s).mp h c hc
  rw [this] at hws
  exact absurd hws (by simp)

/-! ## Lemmas: `safeJoin` -/

theorem joinNN_count0 (L : List Str) (h : ∀ x ∈ L, countOcc endMarker x = 0) :
    countOcc endMarker (joinNN L) = 0 := by
  induction L with
  | nil => simp [joinNN, countOcc]
  | cons x xs ih =>
    cases xs with
    | nil => simpa [joinNN] using h x (by simp)
    | cons y ys =>
      have hx := h x (by simp)
      have hrest : ∀ z ∈ y :: ys, countOcc endMarker z = 0 := fun z hz => h z (by simp [hz])
      have hJ := ih hrest
      show countOcc endMarker (x ++ '\n' :: ('\n' :: joinNN (y :: ys))) = 0
      rw [countOcc_append_nl _ _ _ endMarker_no_nl (by decide)]
      have h2 : countOcc endMarker ('\n' :: joinNN (y :: ys)) = 0 := by
        have h3 := countOcc_append_nl endMarker [] (joinNN (y :: ys)) endMarker_no_nl (by decide)
        simp only [List.nil_append] at h3
        rw [h3, hJ]
        simp [countOcc]
      omega

theorem mem_joinNN (L : List Str) (x : Str) (c : Char) (hx : x ∈ L) (hc : c ∈ x) :
    c ∈ joinNN L := by
  induction L with
  | nil => simp at hx
  | cons y ys ih =>
    cases ys with
    | nil =>
      rcases List.mem_cons.mp hx with h1 | h1
      · subst h1; simpa [joinNN] using hc
      · simp at h1
    | cons z zs =>
      show c ∈ y ++ '\n' :: ('\n' :: joinNN (z :: zs))
      rcases List.mem_cons.mp hx with h1 | h1
      · subst h1; exact List.mem_append.mpr (Or.inl hc)
      · have := ih h1
        exact List.mem_append.mpr (Or.inr (by simp [this]))

/-- The cleaned element list of `safeJoin`. -/
def cleanedOf (outputs : List Str) : List Str :=
  (outputs.map cleanElem).filter (fun o => decide (trim o ≠ []))

theorem safeJoin_eq (outputs : List Str) :
    safeJoin outputs = ensureEndMarker (trim (joinNN (cleanedOf outputs))) := rfl

theorem cleanedOf_count0 (outputs : List Str)
    (h : ∀ o ∈ outputs, countOcc endMarker (cleanElem o) = 0) :
    countOcc endMarker (trim (joinNN (cleanedOf outputs))) = 0 := by
  have hj : countOcc endMarker (joinNN (cleanedOf outputs)) = 0 := by
    apply joinNN_count0
    intro x hx
    have hx2 : x ∈ outputs.map cleanElem := (List.mem_filter.mp hx).1
    obtain ⟨o, ho, rfl⟩ := List.mem_map.mp hx2
    exact h o ho
  have := countOcc_trim_le endMarker (joinNN (cleanedOf outputs))
  omega

theorem combined_ne_nil (outputs : List Str)
    (h2 : ∃ o ∈ outputs, trim (cleanElem o) ≠ []) :
    trim (joinNN (cleanedOf outputs)) ≠ [] := by
  obtain ⟨o, ho, hne⟩ := h2
  have hmem : cleanElem o ∈ cleanedOf outputs := by
    apply List.mem_filter.mpr
    exact ⟨List.mem_map.mpr ⟨o, ho, rfl⟩, by simpa using hne⟩
  have hex : ∃ c ∈ cleanElem o, isWs c = false := by
    by_contra hcontra
    push_neg at hcontra
    apply hne
    rw [trim_empty_iff]
    intro c hc
    have := hcontra c hc
    cases h3 : isWs c
    · exact absurd h3 this
    · rfl
  obtain ⟨c, hc, hws⟩ := hex
  exact trim_ne_nil_of_mem _ c (mem_joinNN _ _ _ hmem hc) hws

theorem ensureEndMarker_append (t : Str) (hne : t ≠ []) (htrim : trim t = t)
    (hcount : countOcc endMarker t = 0) :
    ensureEndMarker t = t ++ '\n' :: endMarker := by
  have hend : strEndsWith t endMarker = false := by
    cases hE : strEndsWith t endMarker
    · rfl
    · have := countOcc_pos_of_endsWith t hE
      omega
  simp [ensureEndMarker, htrim, hne, hend]

/-- Core characterisation of `safeJoin` on marker-free cleaned elements. -/
theorem safeJoin_char (outputs : List Str)
    (h : ∀ o ∈ outputs, countOcc endMarker (cleanElem o) = 0) :
    (trim (joinNN (cleanedOf outputs)) = [] ∧ safeJoin outputs = []) ∨
      (trim (joinNN (cleanedOf outputs)) ≠ [] ∧
        safeJoin outputs = trim (joinNN (cleanedOf outputs)) ++ '\n' :: endMarker) := by
  by_cases hnil : trim (joinNN (cleanedOf outputs)) = []
  · left
    refine ⟨hnil, ?_⟩
    rw [safeJoin_eq, hnil]
    rfl
  · right
    refine ⟨hnil, ?_⟩
    rw [safeJoin_eq]
    exact ensureEndMarker_append _ hnil (trim_idem _) (cleanedOf_count0 outputs h)

/-- The length of the sentinel. -/
theorem endMarker_length : endMarker.length = 9 := by decide

theorem take_append_len (l₁ l₂ : Str) (n : Nat) :
    (l₁ ++ l₂).take (l₁.length + n) = l₁ ++ l₂.take n := by
  induction l₁ with
  | nil => simp
  | cons c l ih => simp [List.take, ih, Nat.succ_add]

/-- Round trip used by joiner idempotence: stripping the sentinel block that
`ensureEndMarker` appended returns the original trimmed text. -/
theorem stripEndMarker_append (t : Str) (htrim : trim t = t) :
    stripEndMarker (t ++ '\n' :: endMarker) = t := by
  have hrt : rstrip t = t := by
    conv_lhs => rw [← htrim]
    rw [rstrip_trim, htrim]
  have hsplit : t ++ '\n' :: endMarker = (t ++ '\n' :: "---END--".data) ++ ['-'] := by
    have : endMarker = "---END--".data ++ ['-'] := by decide
    rw [this]
    simp
  have hr : rstrip (t ++ '\n' :: endMarker) = t ++ '\n' :: endMarker := by
    rw [hsplit, rstrip_append_nonws _ _ (by decide), ← hsplit]
  have hE : strEndsWith (t ++ '\n' :: endMarker) endMarker = true := by
    have : t ++ '\n' :: endMarker = (t ++ ['\n']) ++ endMarker := by simp
    rw [this]
    exact strEndsWith_append_self _ _
  have hlen : (t ++ '\n' :: endMarker).length - endMarker.length = t.length + 1 := by
    simp [endMarker_length]
  have htake : (t ++ '\n' :: endMarker).take (t.length + 1) = t ++ ['\n'] := by
    have h1 : (t ++ '\n' :: endMarker).take (t.length + 1) = t ++ ('\n' :: endMarker).take 1 :=
      take_append_len t ('\n' :: endMarker) 1
    simpa using h1
  rw [stripEndMarker]
  simp only [hr, hE, if_true, hlen, htake]
  rw [rstrip_append_ws _ _ (by decide), hrt]

theorem rstrip_of_trimmed (t : Str) (htrim : trim t = t) : rstrip t = t := by
  conv_lhs => rw [← htrim]
  rw [rstrip_trim, htrim]

/-- `safeJoin` of the singleton `[t ++ "\n---END---"]` returns it unchanged
when `t` is trimmed, non-empty and sentinel-free. -/
theorem safeJoin_single (t : Str) (hne : t ≠ []) (htrim : trim t = t)
    (hcount : countOcc endMarker t = 0) :
    safeJoin [t ++ '\n' :: endMarker] = t ++ '\n' :: endMarker := by
  have hclean : cleanElem (t ++ '\n' :: endMarker) = t := by
    rw [cleanElem, stripEndMarker_append t htrim]
    exact rstrip_of_trimmed t htrim
  have hfilter : cleanedOf [t ++ '\n' :: endMarker] = [t] := by
    rw [cleanedOf]
    simp [hclean, htrim, hne]
  rw [safeJoin_eq, hfilter]
  rw [show joinNN [t] = t from rfl, htrim]
  exact ensureEndMarker_append t hne htrim hcount

/-- C3 counterexample: for the non-empty input list `[""]` the joiner
returns the empty string, which contains the sentinel zero times (and for
an element with an interior sentinel the result contains it twice). -/
theorem safeJoin_sentinel_cex :
    ([([] : Str)] ≠ ([] : List Str)) ∧
      safeJoin [([] : Str)] = [] ∧
      countOcc endMarker (safeJoin [([] : Str)]) = 0 ∧
      countOcc endMarker (safeJoin ["a ---END--- b".data]) = 2 := by decide

/-- C3 (amended): for every input list in which some element still has
non-whitespace content after sentinel stripping, and whose elements
contain the sentinel only as their trailing sentinel block (i.e. the
cleaned element is sentinel-free), `safeJoin` returns a string containing
`---END---` exactly once, and that occurrence is at the end. -/
theorem safeJoin_sentinel_unique (outputs : List Str)
    (h : ∀ o ∈ outputs, countOcc endMarker (cleanElem o) = 0)
    (h2 : ∃ o ∈ outputs, trim (cleanElem o) ≠ []) :
    countOcc endMarker (safeJoin outputs) = 1 ∧
      ∃ u, safeJoin outputs = u ++ endMarker := by
  rcases safeJoin_char outputs h with ⟨hnil, _⟩ | ⟨_, heq⟩
  · exact absurd hnil (combined_ne_nil outputs h2)
  · constructor
    · rw [heq, countOcc_append_nl _ _ _ endMarker_no_nl (by decide),
        cleanedOf_count0 outputs h, countOcc_endMarker_self]
    · refine ⟨trim (joinNN (cleanedOf outputs)) ++ ['\n'], ?_⟩
      rw [heq]
      simp

/-- C3 witness: the amended theorem applied at a concrete list. -/
theorem safeJoin_sentinel_unique_witness :
    (∀ o ∈ ["alpha".data, "beta\n---END---".data], countOcc endMarker (cleanElem o) = 0) ∧
      (∃ o ∈ ["alpha".data, "beta\n---END---".data], trim (cleanElem o) ≠ []) ∧
      (countOcc endMarker (safeJoin ["alpha".data, "beta\n---END---".data]) = 1 ∧
        ∃ u, safeJoin ["alpha".data, "beta\n---END---".data] = u ++ endMarker) :=
  ⟨by decide, by decide, safeJoin_sentinel_unique _ (by decide) (by decide)⟩

/-- C6 counterexample: joining a single already-joined document is not
always the identity: with `a = "---END---\n---END---"` and `b = ""`,
`safeJoin [a, b] = "---END---"` but re-joining it yields `""`. -/
theorem safeJoin_idem_cex :
    safeJoin [safeJoin ["---END---\n---END---".data, ([] : Str)]] ≠
      safeJoin ["---END---\n---END---".data, ([] : Str)] := by decide

/-- C6 (amended): joiner idempotence holds for all pairs whose elements
contain the sentinel only as their trailing sentinel block (the cleaned
elements are sentinel-free): `safeJoin [safeJoin [a, b]] = safeJoin [a, b]`. -/
theorem safeJoin_idem (a b : Str)
    (ha : countOcc endMarker (cleanElem a) = 0)
    (hb : countOcc endMarker (cleanElem b) = 0) :
    safeJoin [safeJoin [a, b]] = safeJoin [a, b] := by
  have h : ∀ o ∈ [a, b], countOcc endMarker (cleanElem o) = 0 := by
    intro o ho
    rcases List.mem_cons.mp ho with h1 | h1
    · exact h1 ▸ ha
    · have : o = b := by simpa using h1
      exact this ▸ hb
  rcases safeJoin_char [a, b] h with ⟨_, hsj⟩ | ⟨hne, heq⟩
  · rw [hsj]
    decide
  · rw [heq]
    exact safeJoin_single _ hne (trim_idem _) (cleanedOf_count0 _ h)

/-- C6 witness: the amended idempotence applied at a concrete pair. -/
theorem safeJoin_idem_witness :
    countOcc endMarker (cleanElem "hello".data) = 0 ∧
      countOcc endMarker (cleanElem "world\n---END---".data) = 0 ∧
      safeJoin [safeJoin ["hello".data, "world\n---END---".data]] =
        safeJoin ["hello".data, "world\n---END---".data] :=
  ⟨by decide, by decide, safeJoin_idem _ _ (by decide) (by decide)⟩

/-- C7: `ensureEndMarker` never fabricates a sentinel on empty output:
whitespace-only input yields the empty string; any input with non-blank
content yields a result ending in `---END---`, returned unchanged
(trimmed) when the sentinel is already present and with `\n---END---`
appended when it is not. -/
theorem ensureEndMarker_spec (text : Str) :
    ((∀ c ∈ text, isWs c = true) → ensureEndMarker text = []) ∧
      (trim text ≠ [] →
        (∃ u, ensureEndMarker text = u ++ endMarker) ∧
          (strEndsWith (trim text) endMarker = true → ensureEndMarker text = trim text) ∧
          (strEndsWith (trim text) endMarker = false →
            ensureEndMarker text = trim text ++ '\n' :: endMarker)) := by
  constructor
  · intro h
    have ht : trim text = [] := (trim_empty_iff text).mpr h
    simp [ensureEndMarker, ht]
  · intro hne
    have h1 : strEndsWith (trim text) endMarker = true → ensureEndMarker text = trim text := by
      intro hE
      simp [ensureEndMarker, hne, hE]
    have h2 : strEndsWith (trim text) endMarker = false →
        ensureEndMarker text = trim text ++ '\n' :: endMarker := by
      intro hE
      simp [ensureEndMarker, hne, hE]
    refine ⟨?_, h1, h2⟩
    cases hE : strEndsWith (trim text) endMarker
    · refine ⟨trim text ++ ['\n'], ?_⟩
      rw [h2 hE]
      simp
    · obtain ⟨u, hu⟩ := (strEndsWith_iff _ _).mp hE
      exact ⟨u, by rw [h1 hE, hu]⟩

/-- C7 witness: the specification applied at a whitespace-only input and at
a concrete non-blank input without a sentinel. -/
theorem ensureEndMarker_spec_witness :
    ((∀ c ∈ "  ".data, isWs c = true) ∧ ensureEndMarker "  ".data = []) ∧
      (trim "abc".data ≠ [] ∧
        ((∃ u, ensureEndMarker "abc".data = u ++ endMarker) ∧
          (strEndsWith (trim "abc".data) endMarker = true →
            ensureEndMarker "abc".data = trim "abc".data) ∧
          (strEndsWith (trim "abc".data) endMarker = false →
            ensureEndMarker "abc".data = trim "abc".data ++ '\n' :: endMarker))) :=
  ⟨⟨by decide, (ensureEndMarker_spec "  ".data).1 (by decide)⟩,
    ⟨by decide, (ensureEndMarker_spec "abc".data).2 (by decide)⟩⟩

/-- C4: quality-gate marker necessity: any output whose body (after
sentinel stripping and trimming) misses one of the three required section
markers is rejected, regardless of its length or bullet count. -/
theorem qualityGate_marker_necessity (text : Str)
    (h : containsCI (trim (stripEndMarker text)) askingMarker = false ∨
        hasMethodMarker (trim (stripEndMarker text)) = false ∨
        containsCI (trim (stripEndMarker text)) pitfallsMarker = false) :
    looksTooShortHomeworkExplain text = true := by
  unfold looksTooShortHomeworkExplain
  rcases h with h | h | h <;> simp [h]

/-- C4 witness: a long, bullet-rich output with the other two markers but
no `Common pitfalls` section is rejected. -/
theorem qualityGate_marker_necessity_witness :
    (containsCI (trim (stripEndMarker qualityGateCexInput)) askingMarker = false ∨
        hasMethodMarker (trim (stripEndMarker qualityGateCexInput)) = false ∨
        containsCI (trim (stripEndMarker qualityGateCexInput)) pitfallsMarker = false) ∧
      220 ≤ (trim (stripEndMarker qualityGateCexInput)).length ∧
      6 ≤ countBullets (trim (stripEndMarker qualityGateCexInput)) ∧
      looksTooShortHomeworkExplain qualityGateCexInput = true :=
  ⟨Or.inr (Or.inr (by decide)), by decide, by decide,
    qualityGate_marker_necessity _ (Or.inr (Or.inr (by decide)))⟩

/-- C5 counterexample: on the exact input of the claim the chunker returns
no units at all (every candidate body falls below the usable-content
thresholds of 60 and 120 non-whitespace characters), not 3 labelled
units. -/
theorem chunker_nested_cex :
    splitIntoProblems c5raw = [] ∧
      ¬ (splitIntoProblems c5raw).map extractProblemLabel =
        ["1(a)".data, "1(b)".data, "2".data] := by decide

/-- C5 (amended): on the nested input padded so each unit passes the
usable-content thresholds, the chunker returns exactly 3 units whose
labels are `1(a)`, `1(b)`, `2`, in that order. -/
theorem chunker_nested_split :
    (splitIntoProblems c5padded).length = 3 ∧
      (splitIntoProblems c5padded).map extractProblemLabel =
        ["1(a)".data, "1(b)".data, "2".data] := by decide

/-! ## Lemmas: the chunkers (C1) -/

theorem mem_flush_append (cur x : Str) (K : List Str)
    (hx : x ∈ (if trim cur = ([] : Str) then ([] : List Str) else [trim cur]) ++ K)
    (hK : ∀ y ∈ K, y ≠ []) : x ≠ [] := by
  rcases List.mem_append.mp hx with h1 | h1
  · by_cases h2 : trim cur = []
    · simp [h2] at h1
    · simp [h2] at h1
      rw [h1]
      exact h2
  · exact hK x h1

theorem chunkCore_mem_ne (m : Nat) :
    ∀ (lines : List Str) (cur x : Str), x ∈ chunkCore m lines cur → x ≠ [] := by
  intro lines
  induction lines with
  | nil =>
    intro cur x hx
    by_cases h : trim cur = []
    · simp [chunkCore, h] at hx
    · simp [chunkCore, h] at hx
      rw [hx]
      exact h
  | cons line rest ih =>
    intro cur x hx
    rw [chunkCore] at hx
    split at hx <;> split at hx <;>
      first
        | exact mem_flush_append cur x _ hx (fun y hy => ih _ y hy)
        | exact ih _ x hx

theorem take_ne_nil (l : Str) (m : Nat) (hl : l ≠ []) (hm : 0 < m) : l.take m ≠ [] := by
  cases l with
  | nil => exact absurd rfl hl
  | cons c t =>
    cases m with
    | zero => omega
    | succ m2 => simp

theorem chunkByChars_ne_nil (text : Str) (m : Nat)
    (ht : trim (text.filter (fun c => c ≠ '\r')) ≠ []) : chunkByChars text m ≠ [] := by
  rw [chunkByChars, if_neg ht]
  dsimp only
  split
  · simp
  · assumption

theorem chunkByChars_mem_ne (text : Str) (m : Nat) (hm : 0 < m) :
    ∀ x ∈ chunkByChars text m, x ≠ [] := by
  intro x hx
  rw [chunkByChars] at hx
  dsimp only at hx
  split at hx
  case isTrue => simp at hx
  case isFalse hne =>
    split at hx
    case isTrue =>
      have hx2 := List.mem_singleton.mp hx
      rw [hx2]
      exact take_ne_nil _ m hne hm
    case isFalse => exact chunkCore_mem_ne m _ _ x hx

theorem nonWsLen_nil : nonWsLen [] = 0 := rfl

/-- C1 counterexample: the raw input `" "` is a non-empty string, yet
`splitIntoProblems` returns the empty sequence (the normalised text is
empty and the character-chunker fallback is never reached). -/
theorem chunker_totality_cex :
    (" ".data ≠ ([] : Str)) ∧ splitIntoProblems " ".data = [] := by decide

/-- C1 (amended): every unit returned by `splitIntoProblems` has a
non-empty body; and for every raw input whose normalised text is non-empty
and contains no top-level numbered marker, the returned sequence is
non-empty (the `chunkByChars` fallback guarantees a chunk). -/
theorem chunker_totality (raw : Str) :
    (∀ u ∈ splitIntoProblems raw, u ≠ []) ∧
      (normalizeText raw ≠ [] →
        scanSegs (wsWrap topCore) (normalizeText raw) = [] →
        splitIntoProblems raw ≠ []) := by
  constructor
  · intro u hu
    rw [splitIntoProblems] at hu
    dsimp only at hu
    split at hu
    case isTrue => simp at hu
    case isFalse hcl =>
      split at hu
      case isTrue => exact chunkByChars_mem_ne _ 2400 (by omega) u hu
      case isFalse =>
        have h2 := (List.mem_filter.mp hu).2
        intro hnil
        rw [hnil] at h2
        simp [nonWsLen_nil] at h2
  · intro hcl htops
    rw [splitIntoProblems, if_neg hcl]
    simp only [htops, if_pos]
    apply chunkByChars_ne_nil
    have hself : trim (normalizeText raw) = normalizeText raw := trim_idem _
    have hex : ∃ c ∈ normalizeText raw, isWs c = false := by
      by_contra hcontra
      push_neg at hcontra
      apply hcl
      rw [← hself, trim_empty_iff]
      intro c hc
      have := hcontra c hc
      cases h3 : isWs c
      · exact absurd h3 this
      · rfl
    obtain ⟨c, hc, hws⟩ := hex
    have hcr : c ≠ '\r' := by
      intro h
      rw [h] at hws
      exact absurd hws (by decide)
    apply trim_ne_nil_of_mem _ c _ hws
    exact List.mem_filter.mpr ⟨hc, by simpa using hcr⟩

/-- C1 witness: the amended totality applied at a concrete marker-free
input. -/
theorem chunker_totality_witness :
    normalizeText "hello world".data ≠ [] ∧
      scanSegs (wsWrap topCore) (normalizeText "hello world".data) = [] ∧
      splitIntoProblems "hello world".data ≠ [] :=
  ⟨by decide, by decide, (chunker_totality "hello world".data).2 (by decide) (by decide)⟩

/-! ## Lemmas: the orchestrator (C2, C8, C9) -/

theorem ensureEndMarker_nil : ensureEndMarker ([] : Str) = [] := rfl

theorem looksTooShort_nil : looksTooShortHomeworkExplain ([] : Str) = true := by decide

theorem attemptUnit_empty_backend (backend : Nat → Str) (hb : ∀ j, backend j = [])
    (k : Nat) (pt : Str) : (attemptUnit backend k pt).2 = none := by
  rw [attemptUnit]
  split
  · rfl
  · simp [hb, ensureEndMarker_nil, looksTooShort_nil]

theorem fanout_empty_backend (backend : Nat → Str) (hb : ∀ j, backend j = []) :
    ∀ (l : List Str) (k : Nat), (fanout backend k l).2 = [] := by
  intro l
  induction l with
  | nil => intro k; rfl
  | cons pt rest ih =>
    intro k
    rw [fanout]
    simp [attemptUnit_empty_backend backend hb, ih]

/-- C2: orchestrator degradation ordering: when the generation backend
returns the empty string for every call, every unit and the salvage
attempt fail the quality gate, and the handler resolves to the
label-based synthetic fallback document as a successful output. -/
theorem orchestrator_fallback (backend : Nat → Str) (materialText : Str)
    (hb : ∀ j, backend j = []) (hlen : 120 ≤ nonWsLen materialText) :
    (runPOST backend true "Homework Explain".data materialText).1 =
      RouteResult.ok (fallbackHomeworkExplainFromLabels (detectProblemLabels materialText)) := by
  have hne : materialText ≠ [] := by
    intro h
    rw [h] at hlen
    exact absurd hlen (by decide)
  have h1 : ¬ ("Homework Explain".data = "Exam Pack".data) := by decide
  have h2 : ¬ (nonWsLen materialText < 120) := by omega
  rw [runPOST, if_neg h1, if_neg (by simp), if_neg hne, if_neg h2, if_pos rfl]
  dsimp only
  rw [fanout_empty_backend backend hb, if_pos rfl, hb, ensureEndMarker_nil,
    if_pos looksTooShort_nil]

/-- C2 witness: the degradation theorem at a concrete 130-character
material with the all-empty backend. -/
theorem orchestrator_fallback_witness :
    (∀ j, (fun _ : Nat => ([] : Str)) j = []) ∧
      120 ≤ nonWsLen (List.replicate 130 'x') ∧
      (runPOST (fun _ => []) true "Homework Explain".data (List.replicate 130 'x')).1 =
        RouteResult.ok
          (fallbackHomeworkExplainFromLabels (detectProblemLabels (List.replicate 130 'x'))) :=
  ⟨fun _ => rfl, by decide,
    orchestrator_fallback (fun _ => []) (List.replicate 130 'x') (fun _ => rfl) (by decide)⟩

/-- C8: too-short input is rejected before any generation: for any tool
other than the Pro-gated `Exam Pack`, material with fewer than 120
non-whitespace characters yields an input error with status 400 and zero
generation calls. -/
theorem input_error_before_generation (backend : Nat → Str) (tool materialText : Str)
    (htool : tool ≠ "Exam Pack".data) (hshort : nonWsLen materialText < 120) :
    (runPOST backend true tool materialText).2 = 0 ∧
      ((runPOST backend true tool materialText).1 = RouteResult.err errNoMaterial 400 ∨
        (runPOST backend true tool materialText).1 = RouteResult.err errTooShort 400) := by
  by_cases hmt : materialText = []
  · rw [runPOST, if_neg htool, if_neg (by simp), if_pos hmt]
    exact ⟨rfl, Or.inl rfl⟩
  · rw [runPOST, if_neg htool, if_neg (by simp), if_neg hmt, if_pos hshort]
    exact ⟨rfl, Or.inr rfl⟩

/-- C8 witness: the input-error theorem at a concrete short request. -/
theorem input_error_before_generation_witness :
    ("Study Guide".data ≠ "Exam Pack".data) ∧
      nonWsLen "hi".data < 120 ∧
      ((runPOST (fun _ => []) true "Study Guide".data "hi".data).2 = 0 ∧
        ((runPOST (fun _ => []) true "Study Guide".data "hi".data).1 =
            RouteResult.err errNoMaterial 400 ∨
          (runPOST (fun _ => []) true "Study Guide".data "hi".data).1 =
            RouteResult.err errTooShort 400)) :=
  ⟨by decide, by decide,
    input_error_before_generation (fun _ => []) _ _ (by decide) (by decide)⟩

theorem attemptUnit_calls_le (backend : Nat → Str) (k : Nat) (pt : Str) :
    (attemptUnit backend k pt).1 ≤ k + 2 := by
  simp only [attemptUnit]
  split
  · omega
  · split
    · exact Nat.le_refl _
    · exact Nat.le_succ _

theorem fanout_calls_le (backend : Nat → Str) :
    ∀ (l : List Str) (k : Nat), (fanout backend k l).1 ≤ k + 2 * l.length := by
  intro l
  induction l with
  | nil => intro k; simp [fanout]
  | cons pt rest ih =>
    intro k
    simp only [fanout]
    have h1 := attemptUnit_calls_le backend k pt
    have h2 := ih (attemptUnit backend k pt).1
    simp only [List.length_cons]
    omega

/-- C9: bounded fan-out and bounded retries: the per-tier caps are 6
(free) and 30 (privileged); each unit costs at most two generation calls
(one attempt plus at most one retry); a unit dropped after its retry does
not prevent the processing of the remaining units; and a whole request
makes at most `2 * cap + 1` generation calls (the `+ 1` being the salvage
attempt). -/
theorem bounded_fanout_and_retries :
    (maxProblems false = 6 ∧ maxProblems true = 30) ∧
      (∀ (backend : Nat → Str) (k : Nat) (pt : Str),
        (attemptUnit backend k pt).1 ≤ k + 2) ∧
      (∀ (backend : Nat → Str) (k : Nat) (pt : Str) (rest : List Str),
        (attemptUnit backend k pt).2 = none →
          fanout backend k (pt :: rest) = fanout backend (attemptUnit backend k pt).1 rest) ∧
      (∀ (backend : Nat → Str) (hasKey : Bool) (tool materialText : Str),
        (runPOST backend hasKey tool materialText).2 ≤ 2 * maxProblems userIsPro + 1) := by
  refine ⟨⟨rfl, rfl⟩, attemptUnit_calls_le, ?_, ?_⟩
  · intro backend k pt rest hnone
    simp only [fanout]
    rw [hnone]
    simp
  · intro backend hasKey tool materialText
    have hcap : maxProblems userIsPro = 6 := rfl
    rw [runPOST]
    split
    · simp
    · split
      · simp
      · split
        · simp
        · split
          · simp
          · split
            · dsimp only
              have hf := fanout_calls_le backend
                ((splitIntoProblems materialText).take 6) 0
              have hlen : ((splitIntoProblems materialText).take 6).length ≤ 6 :=
                le_trans (List.length_take_le _ _) (le_refl 6)
              split
              · split
                · simp only [hcap]
                  omega
                · simp only [hcap]
                  omega
              · simp only [hcap]
                omega
            · dsimp only
              split
              · simp [hcap]
              · simp [hcap]

/-- C9 witness: the retry bound, drop-continuation and call bound at
concrete inputs. -/
theorem bounded_fanout_and_retries_witness :
    ((attemptUnit (fun _ => []) 0 ([] : Str)).2 = none ∧
      fanout (fun _ => []) 0 ([([] : Str)]) =
        fanout (fun _ => []) ((attemptUnit (fun _ => []) 0 ([] : Str)).1) []) ∧
      (runPOST (fun _ => []) true "Study Guide".data "hi".data).2 ≤
        2 * maxProblems userIsPro + 1 :=
  ⟨⟨by decide,
      bounded_fanout_and_retries.2.2.1 (fun _ => []) 0 [] [] (by decide)⟩,
    bounded_fanout_and_retries.2.2.2 (fun _ => []) true "Study Guide".data "hi".data⟩

/-! ## Lemmas: the fallback document and the quality gate (C10)

The fallback block is the label line `[label]` followed by the fixed
`blockRest`, whose eleven lines are all bullet lines.  The bullet counter
is traced line by line: each line contributes exactly one match, labels
contribute none (a match can only start at a line start, and the label
line starts with `[`). -/

theorem bulletLine1 (s : Str) :
    bulletGo 0 true ("- What the problem is asking:".data ++ '\n' :: s) =
      1 + bulletGo 0 true s := rfl

theorem bulletLine2 (s : Str) :
    bulletGo 0 true ("  - Identify what quantity the problem wants (value, sketch, property, transform, etc.).".data ++ '\n' :: s) =
      1 + bulletGo 0 true s := rfl

theorem bulletLine3 (s : Str) :
    bulletGo 0 true ("  - Restate the required final format (e.g., rectangular vs. polar, labeled sketch, etc.).".data ++ '\n' :: s) =
      1 + bulletGo 0 true s := rfl

theorem bulletLine4 (s : Str) :
    bulletGo 0 true ("- Method / steps to solve:".data ++ '\n' :: s) =
      1 + bulletGo 0 true s := rfl

theorem bulletLine5 (s : Str) :
    bulletGo 0 true ("  - Rewrite the given expression clearly and simplify step-by-step.".data ++ '\n' :: s) =
      1 + bulletGo 0 true s := rfl

theorem bulletLine6 (s : Str) :
    bulletGo 0 true ("  - If complex numbers: convert between rectangular/polar as needed and track magnitude/phase carefully.".data ++ '\n' :: s) =
      1 + bulletGo 0 true s := rfl

theorem bulletLine7 (s : Str) :
    bulletGo 0 true ("  - If signals: map time-shift/scale/reversal operations by transforming key time points and amplitudes.".data ++ '\n' :: s) =
      1 + bulletGo 0 true s := rfl

theorem bulletLine8 (s : Str) :
    bulletGo 0 true ("- Common pitfalls:".data ++ '\n' :: s) =
      1 + bulletGo 0 true s := rfl

theorem bulletLine9 (s : Str) :
    bulletGo 0 true ("  - Skipping algebra steps and losing signs or j factors.".data ++ '\n' :: s) =
      1 + bulletGo 0 true s := rfl

theorem bulletLine10 (s : Str) :
    bulletGo 0 true ("  - Using the wrong convention (degrees vs radians, atan vs atan2 quadrant).".data ++ '\n' :: s) =
      1 + bulletGo 0 true s := rfl

theorem bulletLine11 (s : Str) :
    bulletGo 0 true ("  - Applying time transforms in the wrong direction or order.".data ++ s) =
      1 + bulletGo 0 false s := rfl

/-- `blockRest` decomposed into its eleven lines. -/
theorem blockRest_split :
    blockRest =
      "- What the problem is asking:".data ++ '\n' ::
        ("  - Identify what quantity the problem wants (value, sketch, property, transform, etc.).".data ++ '\n' ::
          ("  - Restate the required final format (e.g., rectangular vs. polar, labeled sketch, etc.).".data ++ '\n' ::
            ("- Method / steps to solve:".data ++ '\n' ::
              ("  - Rewrite the given expression clearly and simplify step-by-step.".data ++ '\n' ::
                ("  - If complex numbers: convert between rectangular/polar as needed and track magnitude/phase carefully.".data ++ '\n' ::
                  ("  - If signals: map time-shift/scale/reversal operations by transforming key time points and amplitudes.".data ++ '\n' ::
                    ("- Common pitfalls:".data ++ '\n' ::
                      ("  - Skipping algebra steps and losing signs or j factors.".data ++ '\n' ::
                        ("  - Using the wrong convention (degrees vs radians, atan vs atan2 quadrant).".data ++ '\n' ::
                          "  - Applying time transforms in the wrong direction or order.".data))))))))) := by
  decide

theorem bullets_blockRest (s : Str) :
    bulletGo 0 true (blockRest ++ s) = 11 + bulletGo 0 false s := by
  have hsplit : blockRest ++ s =
      "- What the problem is asking:".data ++ '\n' ::
        ("  - Identify what quantity the problem wants (value, sketch, property, transform, etc.).".data ++ '\n' ::
          ("  - Restate the required final format (e.g., rectangular vs. polar, labeled sketch, etc.).".data ++ '\n' ::
            ("- Method / steps to solve:".data ++ '\n' ::
              ("  - Rewrite the given expression clearly and simplify step-by-step.".data ++ '\n' ::
                ("  - If complex numbers: convert between rectangular/polar as needed and track magnitude/phase carefully.".data ++ '\n' ::
                  ("  - If signals: map time-shift/scale/reversal operations by transforming key time points and amplitudes.".data ++ '\n' ::
                    ("- Common pitfalls:".data ++ '\n' ::
                      ("  - Skipping algebra steps and losing signs or j factors.".data ++ '\n' ::
                        ("  - Using the wrong convention (degrees vs radians, atan vs atan2 quadrant).".data ++ '\n' ::
                          ("  - Applying time transforms in the wrong direction or order.".data ++ s)))))))))) := by
    rw [blockRest_split]
    simp [List.append_assoc, List.cons_append]
  rw [hsplit, bulletLine1, bulletLine2, bulletLine3, bulletLine4, bulletLine5, bulletLine6,
    bulletLine7, bulletLine8, bulletLine9, bulletLine10, bulletLine11]
  omega

theorem bullet_skip_run (u s : Str) (hu : ∀ c ∈ u, c ≠ '\n') :
    bulletGo 0 false (u ++ s) = bulletGo 0 false s := by
  induction u with
  | nil => rfl
  | cons c u' ih =>
    have hc : c ≠ '\n' := hu c (by simp)
    have hu2 : ∀ d ∈ u', d ≠ '\n' := fun d hd => hu d (by simp [hd])
    have hstep : bulletGo 0 false (c :: (u' ++ s)) = bulletGo 0 (decide (c = '\n')) (u' ++ s) := rfl
    show bulletGo 0 false (c :: (u' ++ s)) = _
    rw [hstep, decide_eq_false hc]
    exact ih hu2

theorem bullets_block (l : Str) (hl : ∀ c ∈ l, c ≠ '\n') (s : Str) :
    bulletGo 0 true ('[' :: (l ++ ']' :: '\n' :: (blockRest ++ s))) =
      11 + bulletGo 0 false s := by
  have hA : bulletGo 0 true ('[' :: (l ++ ']' :: '\n' :: (blockRest ++ s))) =
      bulletGo 0 false (l ++ ']' :: '\n' :: (blockRest ++ s)) := rfl
  have hC : bulletGo 0 false (']' :: '\n' :: (blockRest ++ s)) =
      bulletGo 0 true (blockRest ++ s) := rfl
  rw [hA, bullet_skip_run l _ hl, hC, bullets_blockRest]

theorem dropWhile_append_ne (p : Char → Bool) (x y : Str) (hx : x.dropWhile p ≠ []) :
    (x ++ y).dropWhile p = x.dropWhile p ++ y := by
  induction x with
  | nil => simp at hx
  | cons c x' ih =>
    by_cases hp : p c
    · have hx2 : x'.dropWhile p ≠ [] := by simpa [List.dropWhile, hp] using hx
      simp [List.dropWhile, hp, ih hx2]
    · simp [List.dropWhile, hp]

theorem rstrip_append_fixed (A B : Str) (hB : rstrip B = B) (hne : B ≠ []) :
    rstrip (A ++ B) = A ++ B := by
  have hrevne : B.reverse.dropWhile isWs ≠ [] := by
    intro h
    have h2 : rstrip B = [] := by simp [rstrip, h]
    rw [hB] at h2
    exact hne h2
  have h1 : (A ++ B).reverse = B.reverse ++ A.reverse := by simp
  rw [rstrip, h1, dropWhile_append_ne _ _ _ hrevne]
  have h2 : B.reverse.dropWhile isWs = B.reverse := by
    have h3 := congrArg List.reverse hB
    simpa [rstrip] using h3
  rw [h2]
  simp

theorem blockOf_eq (l : Str) : blockOf l = '[' :: (l ++ ']' :: '\n' :: blockRest) := by
  have hshape : ('\n' :: '[' :: (l ++ ']' :: '\n' :: blockRest ++ ['\n'])) =
      '\n' :: (('[' :: (l ++ ']' :: '\n' :: blockRest)) ++ ['\n']) := by
    simp [List.append_assoc]
  rw [blockOf, hshape]
  have h2 : lstrip ('\n' :: (('[' :: (l ++ ']' :: '\n' :: blockRest)) ++ ['\n'])) =
      ('[' :: (l ++ ']' :: '\n' :: blockRest)) ++ ['\n'] := rfl
  show rstrip (lstrip _) = _
  rw [h2, rstrip_append_ws _ '\n' (by decide)]
  have h3 : '[' :: (l ++ ']' :: '\n' :: blockRest) = ('[' :: l) ++ (']' :: '\n' :: blockRest) := by
    simp
  rw [h3]
  exact rstrip_append_fixed _ _ (by decide) (by decide)

theorem joinNN_blocks_shape (ls : List Str) (hne : ls ≠ []) :
    ∃ rest, joinNN (ls.map blockOf) = '[' :: rest := by
  cases ls with
  | nil => exact absurd rfl hne
  | cons l ls' =>
    cases ls' with
    | nil =>
      refine ⟨l ++ ']' :: '\n' :: blockRest, ?_⟩
      show joinNN [blockOf l] = _
      rw [show joinNN [blockOf l] = blockOf l from rfl, blockOf_eq]
    | cons l2 ls2 =>
      refine ⟨(l ++ ']' :: '\n' :: blockRest) ++ '\n' :: '\n' :: joinNN ((l2 :: ls2).map blockOf), ?_⟩
      show blockOf l ++ '\n' :: '\n' :: joinNN ((l2 :: ls2).map blockOf) = _
      rw [blockOf_eq]
      simp

theorem joinNN_blocks_last (ls : List Str) (hne : ls ≠ []) :
    ∃ init, joinNN (ls.map blockOf) = init ++ blockRest := by
  induction ls with
  | nil => exact absurd rfl hne
  | cons l ls' ih =>
    cases ls' with
    | nil =>
      refine ⟨'[' :: (l ++ [']', '\n']), ?_⟩
      show blockOf l = _
      rw [blockOf_eq]
      simp
    | cons l2 ls2 =>
      obtain ⟨init2, hinit2⟩ := ih (by simp)
      refine ⟨blockOf l ++ '\n' :: '\n' :: init2, ?_⟩
      show blockOf l ++ '\n' :: '\n' :: joinNN ((l2 :: ls2).map blockOf) = _
      rw [hinit2]
      simp

theorem trim_joinNN_blocks (ls : List Str) (hne : ls ≠ []) :
    trim (joinNN (ls.map blockOf)) = joinNN (ls.map blockOf) := by
  obtain ⟨rest, hrest⟩ := joinNN_blocks_shape ls hne
  obtain ⟨init, hinit⟩ := joinNN_blocks_last ls hne
  have h1 : lstrip (joinNN (ls.map blockOf)) = joinNN (ls.map blockOf) := by
    rw [hrest]
    exact lstrip_cons_nonws _ _ (by decide)
  have h2 : rstrip (joinNN (ls.map blockOf)) = joinNN (ls.map blockOf) := by
    rw [hinit]
    exact rstrip_append_fixed _ _ (by decide) (by decide)
  show rstrip (lstrip _) = _
  rw [h1, h2]

theorem joinNN_blocks_decomp (l₁ : Str) (ls' : List Str) :
    ∃ z, joinNN ((l₁ :: ls').map blockOf) = blockOf l₁ ++ z := by
  cases ls' with
  | nil => exact ⟨[], by simp [joinNN]⟩
  | cons l2 ls2 => exact ⟨'\n' :: '\n' :: joinNN ((l2 :: ls2).map blockOf), rfl⟩

theorem bullets_joinNN (ls : List Str) (hne : ls ≠ []) (hnl : ∀ l ∈ ls, ∀ c ∈ l, c ≠ '\n')
    (s : Str) :
    bulletGo 0 true (joinNN (ls.map blockOf) ++ s) = 11 * ls.length + bulletGo 0 false s := by
  induction ls with
  | nil => exact absurd rfl hne
  | cons l ls' ih =>
    cases ls' with
    | nil =>
      have hl := hnl l (by simp)
      show bulletGo 0 true (blockOf l ++ s) = _
      rw [blockOf_eq]
      have hassoc : ('[' :: (l ++ ']' :: '\n' :: blockRest)) ++ s =
          '[' :: (l ++ ']' :: '\n' :: (blockRest ++ s)) := by simp
      rw [hassoc, bullets_block l hl s]
      simp
    | cons l2 ls2 =>
      have hl := hnl l (by simp)
      have hnl2 : ∀ m ∈ l2 :: ls2, ∀ c ∈ m, c ≠ '\n' := fun m hm => hnl m (by simp [hm])
      obtain ⟨jrest, hj⟩ := joinNN_blocks_shape (l2 :: ls2) (by simp)
      show bulletGo 0 true ((blockOf l ++ '\n' :: '\n' :: joinNN ((l2 :: ls2).map blockOf)) ++ s) = _
      rw [blockOf_eq]
      have hassoc : (('[' :: (l ++ ']' :: '\n' :: blockRest)) ++
            '\n' :: '\n' :: joinNN ((l2 :: ls2).map blockOf)) ++ s =
          '[' :: (l ++ ']' :: '\n' ::
            (blockRest ++ ('\n' :: '\n' :: (joinNN ((l2 :: ls2).map blockOf) ++ s)))) := by
        simp
      rw [hassoc, bullets_block l hl _]
      have hxj : joinNN ((l2 :: ls2).map blockOf) ++ s = '[' :: (jrest ++ s) := by
        rw [hj]
        simp
      rw [hxj]
      have htrans : bulletGo 0 false ('\n' :: '\n' :: ('[' :: (jrest ++ s))) =
          bulletGo 0 true ('[' :: (jrest ++ s)) := rfl
      rw [htrans, ← hxj, ih (by simp) hnl2]
      simp [List.length_cons]
      ring

theorem hasMethod_of_parts (u s : Str) (hm : methodAt s = true) :
    hasMethodMarker (u ++ s) = true := by
  induction u with
  | nil =>
    cases s with
    | nil => exact absurd hm (by decide)
    | cons c r => simp [hasMethodMarker, hm]
  | cons c u' ih =>
    show hasMethodMarker (c :: (u' ++ s)) = true
    simp [hasMethodMarker, ih]

theorem methodAt_marker (v : Str) : methodAt ("Method / steps to solve".data ++ v) = true := rfl

theorem containsCI_of_parts (s pre mid post pat : Str) (h : s = pre ++ (mid ++ post))
    (hm : lcStr mid = pat) : containsCI s pat = true := by
  rw [containsCI, h]
  have hdist : lcStr (pre ++ (mid ++ post)) = lcStr pre ++ (lcStr mid ++ lcStr post) := by
    simp [lcStr]
  rw [hdist, hm]
  have h2 := strContains_of_parts pat (lcStr pre) (lcStr post)
  simpa [List.append_assoc] using h2

/-- Core of C10: for any non-empty, newline-free label list, the document
built from the fallback blocks passes the quality gate. -/
theorem fallback_core (ls : List Str) (hne : ls ≠ []) (hnl : ∀ l ∈ ls, ∀ c ∈ l, c ≠ '\n') :
    looksTooShortHomeworkExplain (trim (joinNN (ls.map blockOf)) ++ '\n' :: endMarker) = false := by
  have htr : trim (joinNN (ls.map blockOf)) = joinNN (ls.map blockOf) := trim_joinNN_blocks ls hne
  rw [htr]
  have hbody : trim (stripEndMarker (joinNN (ls.map blockOf) ++ '\n' :: endMarker)) =
      joinNN (ls.map blockOf) := by
    rw [stripEndMarker_append _ htr, htr]
  obtain ⟨l₁, ls', rfl⟩ : ∃ a b, ls = a :: b := by
    cases ls with
    | nil => exact absurd rfl hne
    | cons a b => exact ⟨a, b, rfl⟩
  obtain ⟨z, hdec⟩ := joinNN_blocks_decomp l₁ ls'
  rw [blockOf_eq] at hdec
  have hask : containsCI (joinNN ((l₁ :: ls').map blockOf)) askingMarker = true := by
    refine containsCI_of_parts (joinNN ((l₁ :: ls').map blockOf))
      ('[' :: (l₁ ++ ']' :: '\n' :: blockRest.take 2))
      "What the problem is asking".data (blockRest.drop 28 ++ z) askingMarker ?_ (by decide)
    rw [hdec]
    have hbr : blockRest =
        blockRest.take 2 ++ ("What the problem is asking".data ++ blockRest.drop 28) := by decide
    conv_lhs => rw [hbr]
    simp
  have hpit : containsCI (joinNN ((l₁ :: ls').map blockOf)) pitfallsMarker = true := by
    refine containsCI_of_parts (joinNN ((l₁ :: ls').map blockOf))
      ('[' :: (l₁ ++ ']' :: '\n' :: blockRest.take 517))
      "Common pitfalls".data (blockRest.drop 532 ++ z) pitfallsMarker ?_ (by decide)
    rw [hdec]
    have hbr : blockRest =
        blockRest.take 517 ++ ("Common pitfalls".data ++ blockRest.drop 532) := by decide
    conv_lhs => rw [hbr]
    simp
  have hmeth : hasMethodMarker (joinNN ((l₁ :: ls').map blockOf)) = true := by
    rw [hdec]
    have hbr : blockRest =
        blockRest.take 212 ++ ("Method / steps to solve".data ++ blockRest.drop 235) := by decide
    have hshape : ('[' :: (l₁ ++ ']' :: '\n' :: blockRest)) ++ z =
        ('[' :: (l₁ ++ ']' :: '\n' :: blockRest.take 212)) ++
          ("Method / steps to solve".data ++ (blockRest.drop 235 ++ z)) := by
      conv_lhs => rw [hbr]
      simp
    rw [hshape]
    exact hasMethod_of_parts _ _ (methodAt_marker _)
  have hbul : countBullets (joinNN ((l₁ :: ls').map blockOf)) = 11 * (l₁ :: ls').length := by
    have hb := bullets_joinNN (l₁ :: ls') (by simp) hnl []
    simpa [countBullets] using hb
  have hlen : 220 ≤ (joinNN ((l₁ :: ls').map blockOf)).length := by
    rw [hdec]
    have hBRlen : blockRest.length = 730 := by decide
    simp [List.length_append, hBRlen]
    omega
  have hbul6 : 6 ≤ countBullets (joinNN ((l₁ :: ls').map blockOf)) := by
    rw [hbul]
    simp [List.length_cons]
    omega
  simp only [looksTooShortHomeworkExplain, hbody, hask, hpit, hmeth]
  simp only [List.map_cons] at hbul6 hlen
  simp [hbul6, hlen]

/-- Implicit C10: for every list of detected labels (which never contain a
newline), the synthetic fallback document passes the quality gate and ends
with the sentinel; with fewer than two labels the placeholder labels
`Homework-1`, `Homework-2` are substituted (the document equals the one
built from the placeholders). -/
theorem fallback_doc_valid (labels : List Str) (h : ∀ l ∈ labels, '\n' ∉ l) :
    looksTooShortHomeworkExplain (fallbackHomeworkExplainFromLabels labels) = false ∧
      (∃ u, fallbackHomeworkExplainFromLabels labels = u ++ endMarker) ∧
      (labels.length < 2 →
        fallbackHomeworkExplainFromLabels labels =
          fallbackHomeworkExplainFromLabels ["Homework-1".data, "Homework-2".data]) := by
  have hfb : fallbackHomeworkExplainFromLabels labels =
      trim (joinNN
        (((if 2 ≤ labels.length then labels
            else ["Homework-1".data, "Homework-2".data]).take 10).map blockOf)) ++
        '\n' :: endMarker := rfl
  have hne : ((if 2 ≤ labels.length then labels
      else ["Homework-1".data, "Homework-2".data]).take 10) ≠ [] := by
    split
    case isTrue hge =>
      have hlen2 : 0 < (labels.take 10).length := by
        rw [List.length_take]
        omega
      exact List.ne_nil_of_length_pos hlen2
    case isFalse => decide
  have hnl : ∀ l ∈ ((if 2 ≤ labels.length then labels
      else ["Homework-1".data, "Homework-2".data]).take 10), ∀ c ∈ l, c ≠ '\n' := by
    intro l hl c hc
    have hl2 := List.take_subset 10 _ hl
    intro hceq
    revert hl2
    split
    case isTrue =>
      intro hl3
      exact absurd (hceq ▸ hc) (h l hl3)
    case isFalse =>
      intro hl3
      subst hceq
      rcases List.mem_cons.mp hl3 with h1 | h1
      · rw [h1] at hc
        exact absurd hc (by decide)
      · have h2 : l = "Homework-2".data := by simpa using h1
        rw [h2] at hc
        exact absurd hc (by decide)
  refine ⟨?_, ?_, ?_⟩
  · rw [hfb]
    exact fallback_core _ hne hnl
  · refine ⟨trim (joinNN
        (((if 2 ≤ labels.length then labels
            else ["Homework-1".data, "Homework-2".data]).take 10).map blockOf)) ++ ['\n'], ?_⟩
    rw [hfb]
    simp
  · intro hlt
    have hcond : ¬ (2 ≤ labels.length) := by omega
    simp [fallbackHomeworkExplainFromLabels, hcond]

/-- C10 witness: the fallback validity applied at a concrete single
detected label (which triggers the placeholder substitution). -/
theorem fallback_doc_valid_witness :
    (∀ l ∈ ["3(b)(ii)".data], '\n' ∉ l) ∧
      (looksTooShortHomeworkExplain (fallbackHomeworkExplainFromLabels ["3(b)(ii)".data]) = false ∧
        (∃ u, fallbackHomeworkExplainFromLabels ["3(b)(ii)".data] = u ++ endMarker) ∧
        (["3(b)(ii)".data].length < 2 →
          fallbackHomeworkExplainFromLabels ["3(b)(ii)".data] =
            fallbackHomeworkExplainFromLabels ["Homework-1".data, "Homework-2".data])) :=
  ⟨by decide, fallback_doc_valid _ (by decide)⟩

end Aceprep
